import Mathlib

/-!
Verification of the blunt-end overlap-trimming subsystem of
`unicycler/graph_modifications.py`.

Sequences are `List Char`; Python dicts are association lists; a raised
Python exception is `none`/`Except.error`; the external aligner's process
result (stdout, stderr) is an explicit input.
-/

/-- Remove the last `n` elements of a list (Python `l[:len(l)-n]`). -/
def dropEnd (l : List Char) (n : Nat) : List Char :=
  l.take (l.length - n)

/-- Modelled from the spec (§3, §4.1): the `Segment` class lives in
`assembly_graph.py`, which is not part of the excerpt.  A segment owns a
forward sequence and its reverse complement. -/
structure Segment where
  forward_sequence : List Char
  reverse_sequence : List Char
deriving DecidableEq, Repr

/-- Modelled from the spec (§3): `length` is derived, the length of
`forward_sequence`. -/
def Segment.get_length (s : Segment) : Nat :=
  s.forward_sequence.length

/-- Modelled from the spec (§4.1): `trim_from_start(n)` removes the first
`n` bases of the forward orientation and the last `n` bases of the reverse
orientation; it fails (`InvalidTrimError`, here `none`) if `n` is negative
or `n > length`. -/
def Segment.trim_from_start (s : Segment) (n : Int) : Option Segment :=
  if 0 ≤ n ∧ n ≤ (s.get_length : Int) then
    some ⟨s.forward_sequence.drop n.toNat, dropEnd s.reverse_sequence n.toNat⟩
  else
    none

/-- Modelled from the spec (§4.1): `trim_from_end(n)` removes the last `n`
bases of the forward orientation and the first `n` bases of the reverse
orientation; same error conditions as `trim_from_start`. -/
def Segment.trim_from_end (s : Segment) (n : Int) : Option Segment :=
  if 0 ≤ n ∧ n ≤ (s.get_length : Int) then
    some ⟨dropEnd s.forward_sequence n.toNat, s.reverse_sequence.drop n.toNat⟩
  else
    none

/-- Python dict lookup `d[k]` on an association list (`none` = `KeyError`). -/
def alist_lookup : List (Int × Segment) → Int → Option Segment
  | [], _ => none
  | p :: ps, k => if p.1 = k then some p.2 else alist_lookup ps k

/-- Python dict in-place mutation of the value at key `k`. -/
def alist_update : List (Int × Segment) → Int → Segment → List (Int × Segment)
  | [], _, _ => []
  | p :: ps, k, v => (if p.1 = k then (p.1, v) else p) :: alist_update ps k v

/-- Modelled from the spec (§3): the trimming-relevant projection of the
`AssemblyGraph` class (`assembly_graph.py`, outside the excerpt):
`segments` keyed by positive id, `forward_links` keyed by signed id, and
the graph-wide non-negative overlap length. -/
structure AssemblyGraph where
  segments : List (Int × Segment)
  forward_links : List (Int × List Int)
  overlap : Nat
deriving DecidableEq, Repr

/-- `get_segment` from the source: forward sequence for a positive signed
id, reverse sequence for a negative one (`none` = `KeyError`). -/
def get_segment (seg_num : Int) (segments : List (Int × Segment)) :
    Option (List Char) :=
  if 0 < seg_num then
    (alist_lookup segments seg_num).map Segment.forward_sequence
  else
    (alist_lookup segments (-seg_num)).map Segment.reverse_sequence

/-- The `segment_edges` set of `trim_blunt_ends`: for every entry
`(start, ends)` of `forward_links` it holds `-start` and every element of
`ends`.  A list models the Python set; only membership is used. -/
def segment_edges (g : AssemblyGraph) : List Int :=
  g.forward_links.flatMap (fun p => -p.1 :: p.2)

/-- The dead-end query records `trim_blunt_ends` writes to `query_fa`: for
each segment id `n`, the signed id `n` with the forward sequence truncated
to the overlap when `n` is not in `segment_edges`, and the signed id `-n`
with the reverse sequence truncated to the overlap when `-n` is not in
`segment_edges`. -/
def dead_end_queries (g : AssemblyGraph) : List (Int × List Char) :=
  g.segments.flatMap (fun p =>
    (if p.1 ∈ segment_edges g then []
     else
       match get_segment p.1 g.segments with
       | some seq => [(p.1, seq.take g.overlap)]
       | none => []) ++
    (if -p.1 ∈ segment_edges g then []
     else
       match get_segment (-p.1) g.segments with
       | some seq => [(-p.1, seq.take g.overlap)]
       | none => []))

/-- Split a character list at every occurrence of `sep` (Python
`str.split(sep)` semantics: n separators give n+1 fields). -/
def splitOnChar (sep : Char) : List Char → List (List Char)
  | [] => [[]]
  | c :: cs =>
    if c = sep then [] :: splitOnChar sep cs
    else
      match splitOnChar sep cs with
      | [] => [[c]]
      | f :: fs => (c :: f) :: fs

/-- Whitespace for Python `str.strip()` (space, tab, newline, carriage
return; the rarer form-feed class members do not occur in aligner output). -/
def pyWhitespace (c : Char) : Bool :=
  c = ' ' || c = '\t' || c = '\n' || c = '\r'

/-- Python `str.strip()`: drop leading and trailing whitespace. -/
def pyStrip (l : List Char) : List Char :=
  ((l.dropWhile pyWhitespace).reverse.dropWhile pyWhitespace).reverse

/-- `blast_line.strip().split('\t')` field splitting. -/
def splitTab (l : List Char) : List (List Char) :=
  splitOnChar '\t' (pyStrip l)

/-- Python `bytes.decode().splitlines()`: split on newlines, with no
trailing empty field. -/
def splitlines (l : List Char) : List (List Char) :=
  match splitOnChar '\n' l with
  | [] => []
  | ps => if ps.getLast? = some [] then ps.dropLast else ps

/-- Decimal digit value. -/
def digitVal (c : Char) : Option Nat :=
  if '0' ≤ c ∧ c ≤ '9' then some (c.toNat - '0'.toNat) else none

/-- Accumulate a decimal numeral; `none` on a non-digit. -/
def natOfDigitsAux : List Char → Nat → Option Nat
  | [], acc => some acc
  | c :: cs, acc =>
    match digitVal c with
    | some d => natOfDigitsAux cs (acc * 10 + d)
    | none => none

/-- Parse a non-empty decimal numeral. -/
def natOfDigits (l : List Char) : Option Nat :=
  match l with
  | [] => none
  | _ => natOfDigitsAux l 0

/-- Python `int()` on a string (`none` = `ValueError`), for the decimal
numerals the aligner emits. -/
def py_int (l : List Char) : Option Int :=
  match l with
  | '-' :: rest => (natOfDigits rest).map (fun n => -(n : Int))
  | _ => (natOfDigits l).map (fun n => (n : Int))

/-- Parse an unsigned decimal, optionally with a fractional part. -/
def parseRatPos (l : List Char) : Option ℚ :=
  match splitOnChar '.' l with
  | [i] => (natOfDigits i).map (fun n => (n : ℚ))
  | [i, f] =>
    match natOfDigits i, natOfDigitsAux f 0 with
    | some ip, some fp => some ((ip : ℚ) + (fp : ℚ) / (10 ^ f.length : ℚ))
    | _, _ => none
  | _ => none

/-- Python `float()` (`none` = `ValueError`), for the plain decimal
notation the aligner's tabular output uses. -/
def parseRat (l : List Char) : Option ℚ :=
  match l with
  | '-' :: rest => (parseRatPos rest).map Neg.neg
  | _ => parseRatPos l

/-- Python `int()` applied to an already-parsed float: truncation toward
zero. -/
def ratTrunc (q : ℚ) : Int :=
  Int.tdiv q.num (q.den : Int)

/-- The `BlastHit` record.  `qstart` is only assigned on well-formed lines
(the Python constructor leaves the attribute unset otherwise), hence the
`Option`. -/
structure BlastHit where
  qseqid : List Char
  pident : ℚ
  length : ℚ
  bitscore : ℚ
  qstart : Option Int
  flip : Bool
deriving DecidableEq, Repr

/-- `BlastHit.__init__` after the tab split: with more than 7 fields the
numeric fields are parsed (`none` = `ValueError`); otherwise the defaults
set at the top of the constructor remain. -/
def BlastHit.ofParts (parts : List (List Char)) : Option BlastHit :=
  if 7 < parts.length then
    match parseRat (parts.getD 3 []), parseRat (parts.getD 4 []),
          py_int (parts.getD 6 []), parseRat (parts.getD 7 []) with
    | some pid, some len, some qs, some bs =>
      some { qseqid := parts.getD 0 [], pident := pid, length := len,
             bitscore := bs, qstart := some (qs - 1), flip := false }
    | _, _, _, _ => none
  else
    some { qseqid := [], pident := 0, length := 0, bitscore := 0,
           qstart := none, flip := false }

/-- `BlastHit(blast_line)`: strip, split on tabs, build the record. -/
def BlastHit.ofLine (line : List Char) : Option BlastHit :=
  BlastHit.ofParts (splitTab line)

/-- The (stdout, stderr) pair of an external aligner invocation. -/
structure ProcResult where
  stdout : List Char
  stderr : List Char
deriving DecidableEq, Repr

/-- `make_blast_db`: writes each edge id's oriented sequence (truncated to
`take` bases when `take` is truthy, i.e. non-zero) and runs `makeblastdb`;
a non-empty error stream is raised (`Except.error`).  The database content
stands in for the db file. -/
def make_blast_db (edges : List Int) (segments : List (Int × Segment))
    (tk : Nat) (res : ProcResult) : Except (List Char) (List (Int × List Char)) :=
  if res.stderr ≠ [] then
    Except.error res.stderr
  else
    Except.ok (edges.filterMap (fun sn =>
      (get_segment sn segments).map (fun seq =>
        (sn, if tk ≠ 0 then seq.take tk else seq))))

/-- `search_blastn`: the error stream is only logged; the hit list is
parsed from stdout alone, one `BlastHit` per line (`none` = a raised
parse error). -/
def search_blastn (res : ProcResult) : Option (List BlastHit) :=
  (splitlines res.stdout).mapM BlastHit.ofLine

/-- One `trim_from_start`/`trim_from_end` invocation made by the hit loop:
which side, the argument passed, and the segment's length at call time. -/
structure TrimCall where
  fromStart : Bool
  n : Int
  segLength : Nat
deriving DecidableEq, Repr

/-- The start-side stage of the hit loop: if trimming `t` would leave the
segment longer than the overlap, call `trim_from_start t`; otherwise the
trim is forced to 0 and the segment is untouched. -/
def apply_start (overlap : Nat) (t : Int) (s : Segment) :
    List TrimCall × Option Segment :=
  if (overlap : Int) < (s.get_length : Int) - t then
    ([⟨true, t, s.get_length⟩], s.trim_from_start t)
  else
    ([], some s)

/-- The end-side stage of the hit loop, on the segment as mutated by the
start-side stage. -/
def apply_end (overlap : Nat) (t : Int) (s : Segment) :
    List TrimCall × Option Segment :=
  if (overlap : Int) < (s.get_length : Int) - t then
    ([⟨false, t, s.get_length⟩], s.trim_from_end t)
  else
    ([], some s)

/-- One iteration of the hit loop of `trim_blunt_ends`: parse the signed
query id, look the segment up under its positive key, derive the start
trim (positive id) or end trim (negative id) from the hit's alignment
length, run both stages, and store the mutated segment back. -/
def hit_step (g : AssemblyGraph) (h : BlastHit) :
    List TrimCall × Option AssemblyGraph :=
  match py_int h.qseqid with
  | none => ([], none)
  | some seg_num =>
    let key := if 0 < seg_num then seg_num else -seg_num
    match alist_lookup g.segments key with
    | none => ([], none)
    | some segment =>
      let start_trim : Int := if 0 < seg_num then ratTrunc h.length else 0
      let end_trim : Int := if seg_num < 0 then ratTrunc h.length else 0
      let p1 := apply_start g.overlap start_trim segment
      match p1.2 with
      | none => (p1.1, none)
      | some s1 =>
        let p2 := apply_end g.overlap end_trim s1
        match p2.2 with
        | none => (p1.1 ++ p2.1, none)
        | some s2 =>
          (p1.1 ++ p2.1,
           some { g with segments := alist_update g.segments key s2 })

/-- The hit loop of `trim_blunt_ends`, also collecting the trim calls it
makes; `none` propagates a raised exception. -/
def trim_run (g : AssemblyGraph) : List BlastHit →
    List TrimCall × Option AssemblyGraph
  | [] => ([], some g)
  | h :: hs =>
    match (hit_step g h).2 with
    | none => ((hit_step g h).1, none)
    | some g' =>
      ((hit_step g h).1 ++ (trim_run g' hs).1, (trim_run g' hs).2)

/-- The 100%-identity filter applied to the aligner's hits. -/
def survivors (hits : List BlastHit) : List BlastHit :=
  hits.filter (fun h => decide (h.pident = (100 : ℚ)))

/-- `trim_blunt_ends`, with the aligner's hit list as the external input:
filter to 100%-identity hits and run the trim loop over them. -/
def trim_blunt_ends (g : AssemblyGraph) (hits : List BlastHit) :
    Option AssemblyGraph :=
  (trim_run g (survivors hits)).2

/-- The `trim_from_start`/`trim_from_end` calls made by a run of
`trim_blunt_ends`. -/
def trim_calls (g : AssemblyGraph) (hits : List BlastHit) : List TrimCall :=
  (trim_run g (survivors hits)).1

/-- `b` contains `a` as a contiguous block: trimming only ever shrinks a
sequence to such a block. -/
def subseg (a b : List Char) : Prop :=
  ∃ u v, b = u ++ a ++ v

/-- `x` is the source of at least one forward link. -/
def sources_link (g : AssemblyGraph) (x : Int) : Prop :=
  ∃ p ∈ g.forward_links, p.1 = x ∧ p.2 ≠ []

/-- `x` is the target of at least one forward link. -/
def is_link_target (g : AssemblyGraph) (x : Int) : Prop :=
  ∃ p ∈ g.forward_links, x ∈ p.2

/-- Concrete 20-base sequence for the scenario graphs. -/
def seqB : List Char := "AAAAACCCCCGGGGGTTTTT".data

/-- Its reverse complement (for the scenario segment). -/
def seqBrc : List Char := "AAAAACCCCCGGGGGTTTTT".data.reverse.map
  (fun c => if c = 'A' then 'T' else if c = 'T' then 'A'
            else if c = 'C' then 'G' else 'C')

/-- Scenario B segment: length 20, fully blunt. -/
def segB : Segment := ⟨seqB, seqBrc⟩

/-- Scenario B graph: one isolated segment, overlap 5. -/
def gB : AssemblyGraph := ⟨[(1, segB)], [], 5⟩

/-- Scenario B hit: query id 1, 100% identity, alignment length 5. -/
def hB : BlastHit := ⟨['1'], 100, 5, 0, some 0, false⟩

/-- A second 100%-identity hit for segment 1, alignment length 3. -/
def hB3 : BlastHit := ⟨['1'], 100, 3, 0, some 0, false⟩

/-- A third 100%-identity hit for segment 1, alignment length 4. -/
def hB4 : BlastHit := ⟨['1'], 100, 4, 0, some 0, false⟩

/-- A sub-100%-identity hit (noise). -/
def hLow : BlastHit := ⟨['1'], 99, 7, 0, some 0, false⟩

/-- Scenario C segment: length 8. -/
def segC : Segment := ⟨"AAAAACCC".data, "GGGTTTTT".data⟩

/-- Scenario C graph: one length-8 segment, overlap 5. -/
def gC : AssemblyGraph := ⟨[(1, segC)], [], 5⟩

/-- Scenario C hit: alignment length 5 against the length-8 segment. -/
def hC : BlastHit := ⟨['1'], 100, 5, 0, some 0, false⟩

/-- Scenario D graph: one length-20 segment, overlap 0. -/
def gD : AssemblyGraph := ⟨[(1, segB)], [], 0⟩

/-- Dead-end classification witness graph: segments 1 and 2 joined by the
link 1 -> 2 (with its reverse-complement mirror -2 -> -1), overlap 5. -/
def gW : AssemblyGraph := ⟨[(1, segB), (2, segB)], [(1, [2]), (-2, [-1])], 5⟩

/-- A well-formed aligner output line for segment 1. -/
def lineX : List Char := "1\t1\t5\t100\t5\tAAAAA\t1\t9".data

/-- The hit parsed from that line. -/
def hitX : BlastHit := ⟨['1'], 100, 5, 9, some 0, false⟩

/-- An aligner invocation that produced output and a non-empty error
stream. -/
def resX : ProcResult := ⟨lineX, "boom".data⟩

/-- The segment produced by a successful `trim_from_start t`. -/
def start_trimmed (s : Segment) (t : Int) : Segment :=
  ⟨s.forward_sequence.drop t.toNat, dropEnd s.reverse_sequence t.toNat⟩

/-- The segment produced by a successful `trim_from_end t`. -/
def end_trimmed (s : Segment) (t : Int) : Segment :=
  ⟨dropEnd s.forward_sequence t.toNat, s.reverse_sequence.drop t.toNat⟩

/-- The graph Scenario B actually produces: segment 1 with its first 5
bases removed. -/
def gBtrimmed : AssemblyGraph :=
  AssemblyGraph.mk [(1, start_trimmed segB 5)] [] 5

lemma subseg_refl (a : List Char) : subseg a a :=
  ⟨[], [], by simp⟩

lemma subseg_trans {a b c : List Char} (h1 : subseg a b) (h2 : subseg b c) :
    subseg a c := by
  obtain ⟨u1, v1, h1⟩ := h1
  obtain ⟨u2, v2, h2⟩ := h2
  exact ⟨u2 ++ u1, v1 ++ v2, by simp [h2, h1]⟩

lemma subseg_length_le {a b : List Char} (h : subseg a b) :
    a.length ≤ b.length := by
  obtain ⟨u, v, h⟩ := h
  simp [h]
  omega

lemma alist_lookup_update_self {l : List (Int × Segment)} {k : Int}
    {s : Segment} (h : alist_lookup l k = some s) (v : Segment) :
    alist_lookup (alist_update l k v) k = some v := by
  induction l with
  | nil => simp [alist_lookup] at h
  | cons p ps ih =>
    simp only [alist_lookup, alist_update] at h ⊢
    by_cases hk : p.1 = k
    · simp [hk]
    · simp only [if_neg hk] at h ⊢
      exact ih h

lemma alist_lookup_update_ne {l : List (Int × Segment)} {k k' : Int}
    (v : Segment) (h : k' ≠ k) :
    alist_lookup (alist_update l k v) k' = alist_lookup l k' := by
  induction l with
  | nil => simp [alist_lookup, alist_update]
  | cons p ps ih =>
    by_cases hk : p.1 = k
    · have hne : ¬ p.1 = k' := by rw [hk]; exact fun hh => h hh.symm
      simp only [alist_update, if_pos hk, alist_lookup, if_neg hne]
      exact ih
    · simp only [alist_update, if_neg hk, alist_lookup]
      split
      · rfl
      · exact ih

lemma alist_update_map_fst (l : List (Int × Segment)) (k : Int) (v : Segment) :
    (alist_update l k v).map Prod.fst = l.map Prod.fst := by
  induction l with
  | nil => rfl
  | cons p ps ih =>
    simp only [alist_update, List.map_cons, ih]
    split
    · rename_i h; simp
    · rfl

lemma alist_lookup_isSome_of_mem {l : List (Int × Segment)} {k : Int}
    {v : Segment} (h : (k, v) ∈ l) : ∃ v', alist_lookup l k = some v' := by
  induction l with
  | nil => simp at h
  | cons p ps ih =>
    by_cases hk : p.1 = k
    · exact ⟨p.2, by simp [alist_lookup, hk]⟩
    · rcases List.mem_cons.mp h with h1 | h1
      · exact absurd (by rw [← h1]) hk
      · obtain ⟨v', hv'⟩ := ih h1
        exact ⟨v', by simp [alist_lookup, hk, hv']⟩

lemma trim_from_start_zero (s : Segment) : s.trim_from_start 0 = some s := by
  simp [Segment.trim_from_start, dropEnd]

lemma trim_from_end_zero (s : Segment) : s.trim_from_end 0 = some s := by
  simp [Segment.trim_from_end, dropEnd]

lemma trim_from_start_eq_some {s s' : Segment} {t : Int}
    (h : s.trim_from_start t = some s') :
    0 ≤ t ∧ t ≤ (s.get_length : Int) ∧
      s' = ⟨s.forward_sequence.drop t.toNat, dropEnd s.reverse_sequence t.toNat⟩ := by
  unfold Segment.trim_from_start at h
  split at h
  · rename_i hc
    exact ⟨hc.1, hc.2, (Option.some.injEq _ _).mp h |>.symm⟩
  · exact absurd h (by simp)

lemma trim_from_end_eq_some {s s' : Segment} {t : Int}
    (h : s.trim_from_end t = some s') :
    0 ≤ t ∧ t ≤ (s.get_length : Int) ∧
      s' = ⟨dropEnd s.forward_sequence t.toNat, s.reverse_sequence.drop t.toNat⟩ := by
  unfold Segment.trim_from_end at h
  split at h
  · rename_i hc
    exact ⟨hc.1, hc.2, (Option.some.injEq _ _).mp h |>.symm⟩
  · exact absurd h (by simp)

lemma apply_start_some {ov : Nat} {t : Int} {s s' : Segment}
    (h : (apply_start ov t s).2 = some s') :
    s' = s ∨ (subseg s'.forward_sequence s.forward_sequence ∧
      s'.get_length ≤ s.get_length ∧ (ov : Int) < (s'.get_length : Int)) := by
  unfold apply_start at h
  split at h
  · rename_i hg
    obtain ⟨ht0, htl, hs'⟩ := trim_from_start_eq_some h
    right
    subst hs'
    refine ⟨⟨s.forward_sequence.take t.toNat, [], by simp⟩, ?_, ?_⟩
    · simp only [Segment.get_length, List.length_drop]
      omega
    · simp only [Segment.get_length, List.length_drop] at hg htl ⊢
      omega
  · exact Or.inl (Option.some.inj h).symm

lemma apply_end_some {ov : Nat} {t : Int} {s s' : Segment}
    (h : (apply_end ov t s).2 = some s') :
    s' = s ∨ (subseg s'.forward_sequence s.forward_sequence ∧
      s'.get_length ≤ s.get_length ∧ (ov : Int) < (s'.get_length : Int)) := by
  unfold apply_end at h
  split at h
  · rename_i hg
    obtain ⟨ht0, htl, hs'⟩ := trim_from_end_eq_some h
    right
    subst hs'
    refine ⟨⟨[], s.forward_sequence.drop (s.forward_sequence.length - t.toNat),
        by simp [dropEnd]⟩, ?_, ?_⟩
    · simp only [Segment.get_length, dropEnd, List.length_take]
      omega
    · simp only [Segment.get_length, dropEnd, List.length_take] at hg htl ⊢
      omega
  · exact Or.inl (Option.some.inj h).symm

lemma apply_start_zero (ov : Nat) (s : Segment) :
    (apply_start ov 0 s).2 = some s := by
  unfold apply_start
  split
  · exact trim_from_start_zero s
  · rfl

lemma apply_end_zero (ov : Nat) (s : Segment) :
    (apply_end ov 0 s).2 = some s := by
  unfold apply_end
  split
  · exact trim_from_end_zero s
  · rfl

lemma shrink_step_trans {ov : Nat} {a b c : Segment}
    (h1 : a = b ∨ (subseg a.forward_sequence b.forward_sequence ∧
      a.get_length ≤ b.get_length ∧ (ov : Int) < (a.get_length : Int)))
    (h2 : b = c ∨ (subseg b.forward_sequence c.forward_sequence ∧
      b.get_length ≤ c.get_length ∧ (ov : Int) < (b.get_length : Int))) :
    a = c ∨ (subseg a.forward_sequence c.forward_sequence ∧
      a.get_length ≤ c.get_length ∧ (ov : Int) < (a.get_length : Int)) := by
  rcases h1 with rfl | ⟨hs1, hl1, ho1⟩
  · exact h2
  · rcases h2 with rfl | ⟨hs2, hl2, ho2⟩
    · exact Or.inr ⟨hs1, hl1, ho1⟩
    · exact Or.inr ⟨subseg_trans hs1 hs2, le_trans hl1 hl2, ho1⟩

lemma hit_step_frame {g g₂ : AssemblyGraph} {h : BlastHit}
    (hstep : (hit_step g h).2 = some g₂) :
    g₂.overlap = g.overlap ∧ g₂.forward_links = g.forward_links ∧
    g₂.segments.map Prod.fst = g.segments.map Prod.fst ∧
    ∀ k s₂, alist_lookup g₂.segments k = some s₂ →
      ∃ s₁, alist_lookup g.segments k = some s₁ ∧
        (s₂ = s₁ ∨ (subseg s₂.forward_sequence s₁.forward_sequence ∧
          s₂.get_length ≤ s₁.get_length ∧
          (g.overlap : Int) < (s₂.get_length : Int))) := by
  unfold hit_step at hstep
  rcases hpy : py_int h.qseqid with _ | n
  · rw [hpy] at hstep
    simp at hstep
  · rw [hpy] at hstep
    simp only at hstep
    rcases hlk : alist_lookup g.segments (if 0 < n then n else -n) with _ | segment
    · rw [hlk] at hstep
      simp at hstep
    · rw [hlk] at hstep
      simp only at hstep
      rcases hA : (apply_start g.overlap
          (if 0 < n then ratTrunc h.length else 0) segment).2 with _ | s1
      · rw [hA] at hstep
        simp at hstep
      · rw [hA] at hstep
        simp only at hstep
        rcases hB : (apply_end g.overlap
            (if n < 0 then ratTrunc h.length else 0) s1).2 with _ | s2
        · rw [hB] at hstep
          simp at hstep
        · rw [hB] at hstep
          simp only at hstep
          have hg₂ := (Option.some.inj hstep).symm
          subst hg₂
          refine ⟨rfl, rfl, alist_update_map_fst _ _ _, ?_⟩
          intro k s₂ hk
          by_cases hkey : k = (if 0 < n then n else -n)
          · subst hkey
            rw [alist_lookup_update_self hlk s2] at hk
            have hs₂ := Option.some.inj hk
            subst hs₂
            exact ⟨segment, hlk,
              shrink_step_trans (apply_end_some hB) (apply_start_some hA)⟩
          · rw [alist_lookup_update_ne s2 hkey] at hk
            exact ⟨s₂, hk, Or.inl rfl⟩

lemma trim_run_frame (hits : List BlastHit) :
    ∀ g g' : AssemblyGraph, (trim_run g hits).2 = some g' →
      g'.overlap = g.overlap ∧ g'.forward_links = g.forward_links ∧
      g'.segments.map Prod.fst = g.segments.map Prod.fst ∧
      ∀ k s', alist_lookup g'.segments k = some s' →
        ∃ s, alist_lookup g.segments k = some s ∧
          (s' = s ∨ (subseg s'.forward_sequence s.forward_sequence ∧
            s'.get_length ≤ s.get_length ∧
            (g.overlap : Int) < (s'.get_length : Int))) := by
  induction hits with
  | nil =>
    intro g g' hrun
    unfold trim_run at hrun
    have := Option.some.inj hrun
    subst this
    exact ⟨rfl, rfl, rfl, fun k s' hk => ⟨s', hk, Or.inl rfl⟩⟩
  | cons hd tl ih =>
    intro g g' hrun
    unfold trim_run at hrun
    rcases hs : (hit_step g hd).2 with _ | g₁
    · rw [hs] at hrun
      simp at hrun
    · rw [hs] at hrun
      simp only at hrun
      obtain ⟨hov1, hfl1, hmf1, hseg1⟩ := hit_step_frame hs
      obtain ⟨hovR, hflR, hmfR, hsegR⟩ := ih g₁ g' hrun
      refine ⟨hovR.trans hov1, hflR.trans hfl1, hmfR.trans hmf1, ?_⟩
      intro k s' hk
      obtain ⟨s₁, hk₁, hrel₁⟩ := hsegR k s' hk
      obtain ⟨s, hk₀, hrel₀⟩ := hseg1 k s₁ hk₁
      rw [hov1] at hrel₁
      exact ⟨s, hk₀, shrink_step_trans hrel₁ hrel₀⟩

lemma ratTrunc_nonneg {q : ℚ} (h : 0 ≤ q) : 0 ≤ ratTrunc q :=
  Int.tdiv_nonneg (Rat.num_nonneg.mpr h) (by positivity)

lemma apply_start_calls {ov : Nat} {t : Int} {s : Segment} (h0 : 0 ≤ t) :
    ∀ c ∈ (apply_start ov t s).1, 0 ≤ c.n ∧ c.n < (c.segLength : Int) := by
  intro c hc
  unfold apply_start at hc
  split at hc
  · rename_i hg
    simp only [List.mem_singleton] at hc
    subst hc
    exact ⟨h0, by simp only; omega⟩
  · simp at hc

lemma apply_end_calls {ov : Nat} {t : Int} {s : Segment} (h0 : 0 ≤ t) :
    ∀ c ∈ (apply_end ov t s).1, 0 ≤ c.n ∧ c.n < (c.segLength : Int) := by
  intro c hc
  unfold apply_end at hc
  split at hc
  · rename_i hg
    simp only [List.mem_singleton] at hc
    subst hc
    exact ⟨h0, by simp only; omega⟩
  · simp at hc

lemma hit_step_calls {g : AssemblyGraph} {h : BlastHit}
    (h0 : 0 ≤ ratTrunc h.length) :
    ∀ c ∈ (hit_step g h).1, 0 ≤ c.n ∧ c.n < (c.segLength : Int) := by
  intro c hc
  unfold hit_step at hc
  rcases hpy : py_int h.qseqid with _ | n
  · rw [hpy] at hc
    simp at hc
  · rw [hpy] at hc
    simp only at hc
    rcases hlk : alist_lookup g.segments (if 0 < n then n else -n) with _ | segment
    · rw [hlk] at hc
      simp at hc
    · rw [hlk] at hc
      simp only at hc
      have hst : (0 : Int) ≤ (if 0 < n then ratTrunc h.length else 0) := by
        split
        · exact h0
        · exact le_refl 0
      have het : (0 : Int) ≤ (if n < 0 then ratTrunc h.length else 0) := by
        split
        · exact h0
        · exact le_refl 0
      rcases hA : (apply_start g.overlap
          (if 0 < n then ratTrunc h.length else 0) segment).2 with _ | s1
      · rw [hA] at hc
        exact apply_start_calls hst c hc
      · rw [hA] at hc
        simp only at hc
        rcases hB : (apply_end g.overlap
            (if n < 0 then ratTrunc h.length else 0) s1).2 with _ | s2
        · rw [hB] at hc
          rcases List.mem_append.mp hc with hc | hc
          · exact apply_start_calls hst c hc
          · exact apply_end_calls het c hc
        · rw [hB] at hc
          simp only at hc
          rcases List.mem_append.mp hc with hc | hc
          · exact apply_start_calls hst c hc
          · exact apply_end_calls het c hc

lemma trim_run_calls (hits : List BlastHit)
    (hlen : ∀ h ∈ hits, 0 ≤ ratTrunc h.length) :
    ∀ g : AssemblyGraph, ∀ c ∈ (trim_run g hits).1,
      0 ≤ c.n ∧ c.n < (c.segLength : Int) := by
  induction hits with
  | nil =>
    intro g c hc
    simp [trim_run] at hc
  | cons hd tl ih =>
    intro g c hc
    have hhd : 0 ≤ ratTrunc hd.length := hlen hd (List.mem_cons_self hd tl)
    have htl : ∀ h ∈ tl, 0 ≤ ratTrunc h.length :=
      fun h hh => hlen h (List.mem_cons_of_mem hd hh)
    unfold trim_run at hc
    rcases hs : (hit_step g hd).2 with _ | g₁
    · rw [hs] at hc
      exact hit_step_calls hhd c hc
    · rw [hs] at hc
      simp only at hc
      rcases List.mem_append.mp hc with hc | hc
      · exact hit_step_calls hhd c hc
      · exact ih htl g₁ c hc

lemma survivors_cons_100 {h : BlastHit} {hits : List BlastHit}
    (hp : h.pident = 100) : survivors (h :: hits) = h :: survivors hits := by
  simp [survivors, hp]

lemma survivors_nil : survivors [] = [] := rfl

lemma trim_run_cons_some {g g₁ : AssemblyGraph} {hd : BlastHit}
    (hits : List BlastHit) (hs : (hit_step g hd).2 = some g₁) :
    (trim_run g (hd :: hits)).2 = (trim_run g₁ hits).2 := by
  conv_lhs => unfold trim_run
  rw [hs]

lemma trim_blunt_ends_single {g : AssemblyGraph} {h : BlastHit}
    (hp : h.pident = 100) :
    trim_blunt_ends g [h] = (hit_step g h).2 := by
  unfold trim_blunt_ends
  rw [survivors_cons_100 hp, survivors_nil]
  rcases hs : (hit_step g h).2 with _ | g₁
  · unfold trim_run
    rw [hs]
  · rw [trim_run_cons_some [] hs]
    rfl

lemma trim_from_start_as_trimmed {s : Segment} {t : Int}
    (h0 : 0 ≤ t) (hl : t ≤ (s.get_length : Int)) :
    s.trim_from_start t = some (start_trimmed s t) := by
  unfold Segment.trim_from_start start_trimmed
  rw [if_pos ⟨h0, hl⟩]

lemma trim_from_end_as_trimmed {s : Segment} {t : Int}
    (h0 : 0 ≤ t) (hl : t ≤ (s.get_length : Int)) :
    s.trim_from_end t = some (end_trimmed s t) := by
  unfold Segment.trim_from_end end_trimmed
  rw [if_pos ⟨h0, hl⟩]

lemma hit_step_pos {g : AssemblyGraph} {h : BlastHit} {n : Int} {s : Segment}
    (hpy : py_int h.qseqid = some n) (hn : 0 < n)
    (h0 : 0 ≤ ratTrunc h.length)
    (hlk : alist_lookup g.segments n = some s) :
    (hit_step g h).2 =
      some (AssemblyGraph.mk
        (alist_update g.segments n
          (if (g.overlap : Int) < (s.get_length : Int) - ratTrunc h.length then
            start_trimmed s (ratTrunc h.length) else s))
        g.forward_links g.overlap) := by
  unfold hit_step
  rw [hpy]
  simp only [if_pos hn, if_neg (show ¬ n < 0 by omega)]
  rw [hlk]
  simp only
  by_cases hg : (g.overlap : Int) < (s.get_length : Int) - ratTrunc h.length
  · have hA : (apply_start g.overlap (ratTrunc h.length) s).2 =
        some (start_trimmed s (ratTrunc h.length)) := by
      unfold apply_start
      rw [if_pos hg]
      exact trim_from_start_as_trimmed h0 (by omega)
    rw [hA]
    simp only
    rw [apply_end_zero]
    simp only
    rw [if_pos hg]
  · have hA : (apply_start g.overlap (ratTrunc h.length) s).2 = some s := by
      unfold apply_start
      rw [if_neg hg]
    rw [hA]
    simp only
    rw [apply_end_zero]
    simp only
    rw [if_neg hg]

lemma hit_step_neg {g : AssemblyGraph} {h : BlastHit} {n : Int} {s : Segment}
    (hpy : py_int h.qseqid = some n) (hn : n < 0)
    (h0 : 0 ≤ ratTrunc h.length)
    (hlk : alist_lookup g.segments (-n) = some s) :
    (hit_step g h).2 =
      some (AssemblyGraph.mk
        (alist_update g.segments (-n)
          (if (g.overlap : Int) < (s.get_length : Int) - ratTrunc h.length then
            end_trimmed s (ratTrunc h.length) else s))
        g.forward_links g.overlap) := by
  unfold hit_step
  rw [hpy]
  simp only [if_neg (show ¬ 0 < n by omega)]
  rw [hlk]
  simp only [if_pos hn]
  rw [apply_start_zero]
  simp only
  by_cases hg : (g.overlap : Int) < (s.get_length : Int) - ratTrunc h.length
  · have hB : (apply_end g.overlap (ratTrunc h.length) s).2 =
        some (end_trimmed s (ratTrunc h.length)) := by
      unfold apply_end
      rw [if_pos hg]
      exact trim_from_end_as_trimmed h0 (by omega)
    rw [hB]
    simp only
    rw [if_pos hg]
  · have hB : (apply_end g.overlap (ratTrunc h.length) s).2 = some s := by
      unfold apply_end
      rw [if_neg hg]
    rw [hB]
    simp only
    rw [if_neg hg]

lemma not_mem_segment_edges_iff {g : AssemblyGraph} {x : Int}
    (hne : ∀ p ∈ g.forward_links, p.2 ≠ []) :
    x ∉ segment_edges g ↔ ¬ sources_link g (-x) ∧ ¬ is_link_target g x := by
  constructor
  · intro hx
    constructor
    · rintro ⟨p, hp, hp1, -⟩
      exact hx (List.mem_flatMap.mpr ⟨p, hp, by
        exact List.mem_cons.mpr (Or.inl (by omega))⟩)
    · rintro ⟨p, hp, hxp⟩
      exact hx (List.mem_flatMap.mpr ⟨p, hp, List.mem_cons_of_mem _ hxp⟩)
  · rintro ⟨hsrc, htgt⟩ hx
    obtain ⟨p, hp, hxe⟩ := List.mem_flatMap.mp hx
    rcases List.mem_cons.mp hxe with h1 | h1
    · exact hsrc ⟨p, hp, by omega, hne p hp⟩
    · exact htgt ⟨p, hp, h1⟩

lemma mem_queries_id_pos {g : AssemblyGraph} {n : Int} {s : Segment}
    (hmem : (n, s) ∈ g.segments) (hn : 0 < n)
    (hpos : ∀ p ∈ g.segments, 0 < p.1) :
    n ∈ (dead_end_queries g).map Prod.fst ↔ n ∉ segment_edges g := by
  constructor
  · intro hq
    obtain ⟨q, hq, hq1⟩ := List.mem_map.mp hq
    obtain ⟨p, hp, hqp⟩ := List.mem_flatMap.mp hq
    rcases List.mem_append.mp hqp with hqp | hqp
    · by_cases hc : p.1 ∈ segment_edges g
      · rw [if_pos hc] at hqp
        simp at hqp
      · rw [if_neg hc] at hqp
        rcases hget : get_segment p.1 g.segments with _ | seq
        · rw [hget] at hqp
          simp at hqp
        · rw [hget] at hqp
          simp only [List.mem_singleton] at hqp
          subst hqp
          simp only at hq1
          subst hq1
          exact hc
    · by_cases hc : -p.1 ∈ segment_edges g
      · rw [if_pos hc] at hqp
        simp at hqp
      · rw [if_neg hc] at hqp
        rcases hget : get_segment (-p.1) g.segments with _ | seq
        · rw [hget] at hqp
          simp at hqp
        · rw [hget] at hqp
          simp only [List.mem_singleton] at hqp
          subst hqp
          simp only at hq1
          have := hpos p hp
          omega
  · intro hx
    obtain ⟨s', hs'⟩ := alist_lookup_isSome_of_mem hmem
    refine List.mem_map.mpr ⟨(n, s'.forward_sequence.take g.overlap), ?_, rfl⟩
    refine List.mem_flatMap.mpr ⟨(n, s), hmem, ?_⟩
    refine List.mem_append.mpr (Or.inl ?_)
    have hget : get_segment n g.segments = some s'.forward_sequence := by
      unfold get_segment
      rw [if_pos hn, hs']
      rfl
    rw [if_neg hx, hget]
    exact List.mem_singleton.mpr rfl

lemma mem_queries_id_neg {g : AssemblyGraph} {n : Int} {s : Segment}
    (hmem : (n, s) ∈ g.segments) (hn : 0 < n)
    (hpos : ∀ p ∈ g.segments, 0 < p.1) :
    -n ∈ (dead_end_queries g).map Prod.fst ↔ -n ∉ segment_edges g := by
  constructor
  · intro hq
    obtain ⟨q, hq, hq1⟩ := List.mem_map.mp hq
    obtain ⟨p, hp, hqp⟩ := List.mem_flatMap.mp hq
    rcases List.mem_append.mp hqp with hqp | hqp
    · by_cases hc : p.1 ∈ segment_edges g
      · rw [if_pos hc] at hqp
        simp at hqp
      · rw [if_neg hc] at hqp
        rcases hget : get_segment p.1 g.segments with _ | seq
        · rw [hget] at hqp
          simp at hqp
        · rw [hget] at hqp
          simp only [List.mem_singleton] at hqp
          subst hqp
          simp only at hq1
          have := hpos p hp
          omega
    · by_cases hc : -p.1 ∈ segment_edges g
      · rw [if_pos hc] at hqp
        simp at hqp
      · rw [if_neg hc] at hqp
        rcases hget : get_segment (-p.1) g.segments with _ | seq
        · rw [hget] at hqp
          simp at hqp
        · rw [hget] at hqp
          simp only [List.mem_singleton] at hqp
          subst hqp
          simp only at hq1
          have hpn : p.1 = n := by omega
          subst hpn
          exact hc
  · intro hx
    obtain ⟨s', hs'⟩ := alist_lookup_isSome_of_mem hmem
    refine List.mem_map.mpr ⟨(-n, s'.reverse_sequence.take g.overlap), ?_, rfl⟩
    refine List.mem_flatMap.mpr ⟨(n, s), hmem, ?_⟩
    refine List.mem_append.mpr (Or.inr ?_)
    have hget : get_segment (-n) g.segments = some s'.reverse_sequence := by
      unfold get_segment
      rw [if_neg (show ¬ 0 < -n by omega)]
      simp only [neg_neg]
      rw [hs']
      rfl
    rw [if_neg hx, hget]
    exact List.mem_singleton.mpr rfl

lemma dead_end_queries_snd {g : AssemblyGraph} {q : Int × List Char}
    (hq : q ∈ dead_end_queries g) :
    ∃ seq : List Char, q.2 = seq.take g.overlap := by
  obtain ⟨p, hp, hqp⟩ := List.mem_flatMap.mp hq
  rcases List.mem_append.mp hqp with hqp | hqp
  · by_cases hc : p.1 ∈ segment_edges g
    · rw [if_pos hc] at hqp
      simp at hqp
    · rw [if_neg hc] at hqp
      rcases hget : get_segment p.1 g.segments with _ | seq
      · rw [hget] at hqp
        simp at hqp
      · rw [hget] at hqp
        simp only [List.mem_singleton] at hqp
        exact ⟨seq, by rw [hqp]⟩
  · by_cases hc : -p.1 ∈ segment_edges g
    · rw [if_pos hc] at hqp
      simp at hqp
    · rw [if_neg hc] at hqp
      rcases hget : get_segment (-p.1) g.segments with _ | seq
      · rw [hget] at hqp
        simp at hqp
      · rw [hget] at hqp
        simp only [List.mem_singleton] at hqp
        exact ⟨seq, by rw [hqp]⟩

/-- C1 (amended): for a surviving (100%-identity) hit, a POSITIVE query id
causes the trim to be applied to the start of the underlying forward
sequence via `trim_from_start` (the forward 3′ end untouched), and a
NEGATIVE query id causes the trim to be applied to the forward sequence's
end via `trim_from_end` — the opposite side-assignment to the claim's. -/
theorem c1_orientation_dispatch (g : AssemblyGraph) (h : BlastHit) (n : Int)
    (s : Segment) (hp : h.pident = 100) (hpy : py_int h.qseqid = some n)
    (h0 : 0 ≤ ratTrunc h.length) :
    (0 < n → alist_lookup g.segments n = some s →
      trim_blunt_ends g [h] =
        some (AssemblyGraph.mk
          (alist_update g.segments n
            (if (g.overlap : Int) < (s.get_length : Int) - ratTrunc h.length
             then start_trimmed s (ratTrunc h.length) else s))
          g.forward_links g.overlap)) ∧
    (n < 0 → alist_lookup g.segments (-n) = some s →
      trim_blunt_ends g [h] =
        some (AssemblyGraph.mk
          (alist_update g.segments (-n)
            (if (g.overlap : Int) < (s.get_length : Int) - ratTrunc h.length
             then end_trimmed s (ratTrunc h.length) else s))
          g.forward_links g.overlap)) := by
  constructor
  · intro hn hlk
    rw [trim_blunt_ends_single hp]
    exact hit_step_pos hpy hn h0 hlk
  · intro hn hlk
    rw [trim_blunt_ends_single hp]
    exact hit_step_neg hpy hn h0 hlk

/-- C1 witness: the amended statement instantiated on Scenario B. -/
theorem c1_orientation_dispatch_witness :
    trim_blunt_ends gB [hB] =
      some (AssemblyGraph.mk
        (alist_update gB.segments 1
          (if (gB.overlap : Int) < (segB.get_length : Int) - ratTrunc hB.length
           then start_trimmed segB (ratTrunc hB.length) else segB))
        gB.forward_links gB.overlap) :=
  (c1_orientation_dispatch gB hB 1 segB (by decide) (by decide) (by decide)).1
    (by decide) (by decide)

/-- C1 counterexample: on Scenario B (length-20 fully blunt segment,
overlap 5, one hit with query id 1, identity 100, alignment length 5) the
code removes the FIRST 5 bases — the result is the original sequence minus
its start, not minus its end, refuting "the segment's end is trimmed by 5
and its start is untouched". -/
theorem c1_scenarioB_counterexample :
    (match trim_blunt_ends gB [hB] with
     | some g' => (alist_lookup g'.segments 1).map Segment.forward_sequence
     | none => none) = some (seqB.drop 5) ∧
    seqB.drop 5 ≠ seqB.take 15 ∧
    (match trim_blunt_ends gB [hB] with
     | some g' => (alist_lookup g'.segments 1).map Segment.get_length
     | none => none) = some 15 := by decide

/-- C2: the safety floor.  Whenever a run of `trim_blunt_ends` succeeds,
every segment of the result is either byte-identical to its original or
its post-trim length is strictly greater than the graph-wide overlap
(hence at least the overlap); a proposed trim that would leave the length
at or below the overlap is forced to 0 on that side. -/
theorem c2_safety_floor (g : AssemblyGraph) (hits : List BlastHit)
    (g' : AssemblyGraph) (hrun : trim_blunt_ends g hits = some g') :
    g'.overlap = g.overlap ∧
    ∀ k s', alist_lookup g'.segments k = some s' →
      ∃ s, alist_lookup g.segments k = some s ∧
        (s' = s ∨ (g.overlap < s'.get_length ∧ g.overlap ≤ s'.get_length)) := by
  obtain ⟨hov, -, -, hseg⟩ := trim_run_frame (survivors hits) g g' hrun
  refine ⟨hov, fun k s' hk => ?_⟩
  obtain ⟨s, hks, hrel⟩ := hseg k s' hk
  refine ⟨s, hks, ?_⟩
  rcases hrel with rfl | ⟨-, -, hlt⟩
  · exact Or.inl rfl
  · have hnat : g.overlap < s'.get_length := by exact_mod_cast hlt
    exact Or.inr ⟨hnat, le_of_lt hnat⟩

/-- C2 witness: Scenario C — a length-8 segment with overlap 5 and a
proposed trim of 5 is left unchanged, and the theorem's conclusion holds
at that run. -/
theorem c2_safety_floor_witness :
    trim_blunt_ends gC [hC] = some gC ∧
    (∃ s, alist_lookup gC.segments 1 = some s ∧
      (segC = s ∨ (gC.overlap < segC.get_length ∧
        gC.overlap ≤ segC.get_length))) :=
  ⟨by decide, (c2_safety_floor gC [hC] gC (by decide)).2 1 segC (by decide)⟩

/-- C3: alignment hits with percent identity strictly below 100 never
influence the result — deleting such a hit anywhere in the hit list leaves
the output of `trim_blunt_ends` unchanged. -/
theorem c3_low_identity_ignored (g : AssemblyGraph) (pre post : List BlastHit)
    (h' : BlastHit) (hlt : h'.pident < 100) :
    trim_blunt_ends g (pre ++ h' :: post) = trim_blunt_ends g (pre ++ post) := by
  unfold trim_blunt_ends
  have hne : (decide (h'.pident = (100 : ℚ))) = false :=
    decide_eq_false (ne_of_lt hlt)
  have hsv : survivors (pre ++ h' :: post) = survivors (pre ++ post) := by
    unfold survivors
    simp [List.filter_append, List.filter_cons, hne]
  rw [hsv]

/-- C3 witness: a 99%-identity hit inserted after Scenario B's hit leaves
the run's result unchanged. -/
theorem c3_low_identity_ignored_witness :
    hLow.pident < 100 ∧
    trim_blunt_ends gB ([hB] ++ hLow :: []) = trim_blunt_ends gB ([hB] ++ []) :=
  ⟨by decide, c3_low_identity_ignored gB [hB] [] hLow (by decide)⟩

/-- C4 (amended): overlap 0 makes every dead-end query sequence empty
(truncation to 0 bases), and with no surviving hit the run returns the
graph unchanged; however `trim_blunt_ends` contains no overlap-0
short-circuit, so a supplied 100%-identity hit still trims (see the
counterexample). -/
theorem c4_overlap_zero_no_trim (g : AssemblyGraph) (h0 : g.overlap = 0) :
    (∀ q ∈ dead_end_queries g, q.2 = []) ∧
    (∀ hits, survivors hits = [] → trim_blunt_ends g hits = some g) := by
  constructor
  · intro q hq
    obtain ⟨seq, hseq⟩ := dead_end_queries_snd hq
    rw [hseq, h0]
    exact List.take_zero seq
  · intro hits hsv
    unfold trim_blunt_ends
    rw [hsv]
    rfl

/-- C4 witness: the amended statement instantiated on the overlap-0 graph
with a hit list whose only hit is below 100% identity. -/
theorem c4_overlap_zero_no_trim_witness :
    gD.overlap = 0 ∧ trim_blunt_ends gD [hLow] = some gD :=
  ⟨by decide, (c4_overlap_zero_no_trim gD (by decide)).2 [hLow] (by decide)⟩

/-- C4 counterexample: with overlap 0 and a supplied 100%-identity hit of
alignment length 5, the length-20 segment IS trimmed to length 15, so the
run is not a no-op "regardless of any supplied alignment hits". -/
theorem c4_overlap_zero_counterexample :
    gD.overlap = 0 ∧ segB.get_length = 20 ∧
    (match trim_blunt_ends gD [hB] with
     | some g' => (alist_lookup g'.segments 1).map Segment.get_length
     | none => none) = some 15 := by decide

/-- C5: dead-end candidate selection — a query for `+n` is emitted exactly
when `-n` sources no forward link and `+n` is no link target (the start is
blunt), and a query for `-n` exactly when `+n` sources no forward link and
`-n` is no link target (the end is blunt); an anchored side is excluded. -/
theorem c5_dead_end_selection (g : AssemblyGraph) (n : Int) (s : Segment)
    (hmem : (n, s) ∈ g.segments) (hn : 0 < n)
    (hpos : ∀ p ∈ g.segments, 0 < p.1)
    (hne : ∀ p ∈ g.forward_links, p.2 ≠ []) :
    (n ∈ (dead_end_queries g).map Prod.fst ↔
      (¬ sources_link g (-n) ∧ ¬ is_link_target g n)) ∧
    (-n ∈ (dead_end_queries g).map Prod.fst ↔
      (¬ sources_link g n ∧ ¬ is_link_target g (-n))) := by
  constructor
  · rw [mem_queries_id_pos hmem hn hpos]
    exact not_mem_segment_edges_iff hne
  · rw [mem_queries_id_neg hmem hn hpos]
    have h2 := not_mem_segment_edges_iff (g := g) (x := -n) hne
    rw [neg_neg] at h2
    exact h2

/-- C5 witness: the selection rule instantiated on the two-segment graph
with the link 1 → 2 and its mirror. -/
theorem c5_dead_end_selection_witness :
    ((1 : Int) ∈ (dead_end_queries gW).map Prod.fst ↔
      (¬ sources_link gW (-1) ∧ ¬ is_link_target gW 1)) ∧
    ((-1 : Int) ∈ (dead_end_queries gW).map Prod.fst ↔
      (¬ sources_link gW 1 ∧ ¬ is_link_target gW (-1))) :=
  c5_dead_end_selection gW 1 segB (by decide) (by decide) (by decide)
    (by decide)

/-- C6 (amended): multiple surviving hits for the same query id are NOT
resolved by last-hit-wins; each hit is applied in turn, so the trims
accumulate — with two surviving hits for positive query id `n` whose
trims both pass the safety floor, the final length is the original minus
the SUM of both alignment lengths. -/
theorem c6_hits_accumulate (g : AssemblyGraph) (h1 h2 : BlastHit) (n : Int)
    (s : Segment)
    (hp1 : h1.pident = 100) (hp2 : h2.pident = 100)
    (hq1 : py_int h1.qseqid = some n) (hq2 : py_int h2.qseqid = some n)
    (hn : 0 < n) (hs : alist_lookup g.segments n = some s)
    (h01 : 0 ≤ ratTrunc h1.length) (h02 : 0 ≤ ratTrunc h2.length)
    (hg1 : (g.overlap : Int) < (s.get_length : Int) - ratTrunc h1.length)
    (hg2 : (g.overlap : Int) <
      (s.get_length : Int) - ratTrunc h1.length - ratTrunc h2.length) :
    ∃ g' s', trim_blunt_ends g [h1, h2] = some g' ∧
      alist_lookup g'.segments n = some s' ∧
      (s'.get_length : Int) =
        (s.get_length : Int) - ratTrunc h1.length - ratTrunc h2.length := by
  have hstep1 := hit_step_pos hq1 hn h01 hs
  rw [if_pos hg1] at hstep1
  have hlen1 : ((start_trimmed s (ratTrunc h1.length)).get_length : Int) =
      (s.get_length : Int) - ratTrunc h1.length := by
    have ht := Int.toNat_of_nonneg h01
    simp only [start_trimmed, Segment.get_length, List.length_drop]
    simp only [Segment.get_length] at hg1 ⊢
    omega
  have hlk1 : alist_lookup
      (alist_update g.segments n (start_trimmed s (ratTrunc h1.length))) n =
      some (start_trimmed s (ratTrunc h1.length)) :=
    alist_lookup_update_self hs _
  have hg2' : ((AssemblyGraph.mk
      (alist_update g.segments n (start_trimmed s (ratTrunc h1.length)))
      g.forward_links g.overlap).overlap : Int) <
      ((start_trimmed s (ratTrunc h1.length)).get_length : Int) -
        ratTrunc h2.length := by
    simp only
    omega
  have hstep2 := hit_step_pos (g := AssemblyGraph.mk
      (alist_update g.segments n (start_trimmed s (ratTrunc h1.length)))
      g.forward_links g.overlap) hq2 hn h02 hlk1
  rw [if_pos hg2'] at hstep2
  refine ⟨AssemblyGraph.mk
      (alist_update
        (alist_update g.segments n (start_trimmed s (ratTrunc h1.length))) n
        (start_trimmed (start_trimmed s (ratTrunc h1.length))
          (ratTrunc h2.length)))
      g.forward_links g.overlap,
    start_trimmed (start_trimmed s (ratTrunc h1.length)) (ratTrunc h2.length),
    ?_, ?_, ?_⟩
  · unfold trim_blunt_ends
    rw [survivors_cons_100 hp1, survivors_cons_100 hp2, survivors_nil]
    rw [trim_run_cons_some [h2] hstep1]
    rw [trim_run_cons_some [] hstep2]
    rfl
  · exact alist_lookup_update_self hlk1 _
  · have ht2 := Int.toNat_of_nonneg h02
    simp only [start_trimmed, Segment.get_length, List.length_drop] at hlen1 ⊢
    simp only [Segment.get_length] at hg1 hg2 ⊢
    omega

/-- C6 witness: two surviving hits of lengths 3 and 4 on the length-20
Scenario B segment — the final length is 20 − 3 − 4 = 13. -/
theorem c6_hits_accumulate_witness :
    ∃ g' s', trim_blunt_ends gB [hB3, hB4] = some g' ∧
      alist_lookup g'.segments 1 = some s' ∧
      (s'.get_length : Int) =
        (segB.get_length : Int) - ratTrunc hB3.length - ratTrunc hB4.length :=
  c6_hits_accumulate gB hB3 hB4 1 segB (by decide) (by decide) (by decide)
    (by decide) (by decide) (by decide) (by decide) (by decide) (by decide)
    (by decide)

/-- C6 counterexample: the claim predicts the trim equals the LAST hit's
alignment length (4, final length 16); the code applies both hits and
leaves length 13. -/
theorem c6_last_hit_wins_counterexample :
    segB.get_length = 20 ∧ ratTrunc hB4.length = 4 ∧
    (match trim_blunt_ends gB [hB3, hB4] with
     | some g' => (alist_lookup g'.segments 1).map Segment.get_length
     | none => none) = some 13 ∧ (13 : Nat) ≠ 20 - 4 := by decide

/-- C7: frame property — a successful run of `trim_blunt_ends` leaves the
forward-link table identical, preserves the segment-id list exactly, and
only ever shrinks a segment's sequence to a contiguous block of the
original. -/
theorem c7_frame_no_link_mutation (g : AssemblyGraph) (hits : List BlastHit)
    (g' : AssemblyGraph) (hrun : trim_blunt_ends g hits = some g') :
    g'.forward_links = g.forward_links ∧
    g'.segments.map Prod.fst = g.segments.map Prod.fst ∧
    ∀ k s', alist_lookup g'.segments k = some s' →
      ∃ s, alist_lookup g.segments k = some s ∧
        subseg s'.forward_sequence s.forward_sequence ∧
        s'.get_length ≤ s.get_length := by
  obtain ⟨-, hfl, hmf, hseg⟩ := trim_run_frame (survivors hits) g g' hrun
  refine ⟨hfl, hmf, fun k s' hk => ?_⟩
  obtain ⟨s, hks, hrel⟩ := hseg k s' hk
  rcases hrel with rfl | ⟨hsub, hle, -⟩
  · exact ⟨s', hks, subseg_refl _, le_refl _⟩
  · exact ⟨s, hks, hsub, hle⟩

/-- C7 witness: the frame property instantiated on the Scenario B run. -/
theorem c7_frame_no_link_mutation_witness :
    trim_blunt_ends gB [hB] = some gBtrimmed ∧
    (gBtrimmed.forward_links = gB.forward_links ∧
     gBtrimmed.segments.map Prod.fst = gB.segments.map Prod.fst ∧
     ∀ k s', alist_lookup gBtrimmed.segments k = some s' →
       ∃ s, alist_lookup gB.segments k = some s ∧
         subseg s'.forward_sequence s.forward_sequence ∧
         s'.get_length ≤ s.get_length) :=
  ⟨by decide, c7_frame_no_link_mutation gB [hB] gBtrimmed (by decide)⟩

/-- C8 (amended): the database-building step propagates a non-empty error
stream as a fatal failure, but the search step does NOT — `search_blastn`
only logs the error stream and its hit list depends on stdout alone. -/
theorem c8_stderr_handling (edges : List Int)
    (segments : List (Int × Segment)) (tk : Nat) (res res₂ : ProcResult) :
    (res.stderr ≠ [] →
      make_blast_db edges segments tk res = Except.error res.stderr) ∧
    (res.stdout = res₂.stdout → search_blastn res = search_blastn res₂) := by
  constructor
  · intro hne
    unfold make_blast_db
    rw [if_pos hne]
  · intro hstd
    unfold search_blastn
    rw [hstd]

/-- C8 witness: a concrete invocation with a non-empty error stream. -/
theorem c8_stderr_handling_witness :
    resX.stderr ≠ [] ∧
    make_blast_db [] [] 5 resX = Except.error resX.stderr ∧
    search_blastn resX = search_blastn (ProcResult.mk resX.stdout []) :=
  ⟨by decide,
   (c8_stderr_handling [] [] 5 resX (ProcResult.mk resX.stdout [])).1
     (by decide),
   (c8_stderr_handling [] [] 5 resX (ProcResult.mk resX.stdout [])).2 rfl⟩

/-- C8 counterexample: with a non-empty error stream, `search_blastn`
still returns the hits parsed from stdout instead of aborting — refuting
"both steps propagate a non-empty stderr as a fatal failure". -/
theorem c8_blastn_continues_counterexample :
    resX.stderr ≠ [] ∧ search_blastn resX = some [hitX] := by decide

/-- C9: given that every hit's alignment length is non-negative (and the
overlap is non-negative by construction), every `trim_from_start` or
`trim_from_end` call made by `trim_blunt_ends` passes an argument `n`
with `0 ≤ n <` the segment's length at call time, so the
`InvalidTrimError` condition (`n` negative or above the current length)
is unreachable. -/
theorem c9_trim_calls_in_range (g : AssemblyGraph) (hits : List BlastHit)
    (hlen : ∀ h ∈ hits, 0 ≤ h.length) :
    ∀ c ∈ trim_calls g hits, 0 ≤ c.n ∧ c.n < (c.segLength : Int) := by
  have hsv : ∀ h ∈ survivors hits, 0 ≤ ratTrunc h.length := by
    intro h hh
    exact ratTrunc_nonneg (hlen h (List.mem_of_mem_filter hh))
  exact trim_run_calls (survivors hits) hsv g

/-- C9 witness: the Scenario B run's first trim call, 5 on a length-20
segment, is in range. -/
theorem c9_trim_calls_in_range_witness :
    (∀ h ∈ [hB], 0 ≤ h.length) ∧
    (TrimCall.mk true 5 20) ∈ trim_calls gB [hB] ∧
    (0 ≤ (TrimCall.mk true 5 20).n ∧
      (TrimCall.mk true 5 20).n < ((TrimCall.mk true 5 20).segLength : Int)) :=
  ⟨by decide, by decide,
   c9_trim_calls_in_range gB [hB] (by decide) (TrimCall.mk true 5 20)
     (by decide)⟩

/-- C10: an aligner output line that strips and splits into at most 7
tab-separated fields (the empty line included) builds the default
`BlastHit` — empty query id, identity 0, length 0 — which the
100%-identity filter removes, so it can never cause a segment mutation or
a parse failure of its query id. -/
theorem c10_malformed_line_harmless (line : List Char)
    (hlen : (splitTab line).length ≤ 7) :
    ∃ h, BlastHit.ofLine line = some h ∧ h.qseqid = [] ∧ h.pident = 0 ∧
      h.length = 0 ∧
      ∀ g rest, trim_blunt_ends g (h :: rest) = trim_blunt_ends g rest := by
  refine ⟨BlastHit.mk [] 0 0 0 none false, ?_, rfl, rfl, rfl, ?_⟩
  · unfold BlastHit.ofLine BlastHit.ofParts
    rw [if_neg (by omega)]
  · intro g rest
    unfold trim_blunt_ends
    have hd : (decide ((0 : ℚ) = 100)) = false := by decide
    have hsv : survivors ((BlastHit.mk [] 0 0 0 none false) :: rest) =
        survivors rest := by
      unfold survivors
      simp [List.filter_cons, hd]
    rw [hsv]

/-- C10 witness: the empty line. -/
theorem c10_malformed_line_harmless_witness :
    (splitTab []).length ≤ 7 ∧
    (∃ h, BlastHit.ofLine [] = some h ∧ h.qseqid = [] ∧ h.pident = 0 ∧
      h.length = 0 ∧
      ∀ g rest, trim_blunt_ends g (h :: rest) = trim_blunt_ends g rest) :=
  ⟨by decide, c10_malformed_line_harmless [] (by decide)⟩
